import Mathlib

/-!
Verification of the stratified-metrics pipeline of `vivarium_gates_child_iv_iron`.

Python strings are embedded as `List Char` (`Str`), so concatenation is list
append and all string operations are ordinary executable list functions.
Pandas frames are embedded as explicit lists of rows; set objects are embedded
as duplicate-free lists, where only membership is ever consumed.
-/

/-- Python strings, embedded as lists of characters. -/
abbrev Str := List Char

/-- Coerce a Lean string literal to the embedding type. -/
def str (s : String) : Str := s.data

/-- Decimal rendering of a natural number, as done by Python `str.format` on an int. -/
def strOfNat (n : Nat) : Str := Nat.toDigits 10 n

/-- ASCII lowercasing of one character, as Python `str.lower` does on ASCII. -/
def lowerChar (c : Char) : Char :=
  if c.toNat ≥ 65 ∧ c.toNat ≤ 90 then Char.ofNat (c.toNat + 32) else c

/-- ASCII lowercasing of a string, as Python `str.lower`. -/
def lowerStr (s : Str) : Str := s.map lowerChar

/-- Python `sep.join(parts)`. -/
def joinSep (sep : Str) : List Str → Str
  | [] => []
  | [p] => p
  | p :: rest => p ++ sep ++ joinSep sep rest

/-- First-match association-list lookup, the semantics of a Python dict read
(and of a `.loc` lookup on a unique index). -/
def alookup {α : Type} (k : Str) : List (Str × α) → Option α
  | [] => none
  | (k', v) :: rest => if k = k' then some v else alookup k rest

/-- itertools.product over a list of value domains: the first domain varies
slowest, the last varies fastest. -/
def itProduct {α : Type} : List (List α) → List (List α)
  | [] => [[]]
  | d :: ds => d.flatMap (fun v => (itProduct ds).map (v :: ·))

/-- Number of tuples the product of these domains has. -/
def sizeProd {α : Type} (ds : List (List α)) : Nat := (ds.map List.length).prod

/-- Mixed-radix decoding of a flat index into one tuple of the product
(first domain slowest, last fastest). -/
def decodeIx {α : Type} (dflt : α) : List (List α) → Nat → List α
  | [], _ => []
  | d :: ds, i => d.getD (i / sizeProd ds) dflt :: decodeIx dflt ds (i % sizeProd ds)

section GenericLemmas

variable {α β : Type}

theorem alookup_eq_none {k : Str} {l : List (Str × α)} (h : k ∉ l.map Prod.fst) :
    alookup k l = none := by
  induction l with
  | nil => rfl
  | cons p rest ih =>
    simp only [List.map_cons, List.mem_cons] at h
    push_neg at h
    simp only [alookup, if_neg h.1]
    exact ih h.2

theorem alookup_of_mem_nodup {k : Str} {v : α} {l : List (Str × α)}
    (hnd : (l.map Prod.fst).Nodup) (hm : (k, v) ∈ l) : alookup k l = some v := by
  induction l with
  | nil => simp at hm
  | cons p rest ih =>
    simp only [List.map_cons, List.nodup_cons] at hnd
    rcases List.mem_cons.mp hm with h | h
    · subst h
      simp [alookup]
    · have hne : k ≠ p.1 := by
        intro he
        exact hnd.1 (he ▸ List.mem_map_of_mem Prod.fst h)
      simp only [alookup, if_neg hne]
      exact ih hnd.2 h

theorem alookup_isSome_of_mem_keys {k : Str} {l : List (Str × α)}
    (h : k ∈ l.map Prod.fst) : ∃ v, alookup k l = some v := by
  induction l with
  | nil => simp at h
  | cons p rest ih =>
    by_cases he : k = p.1
    · exact ⟨p.2, by simp [alookup, he]⟩
    · simp only [List.map_cons, List.mem_cons] at h
      rcases h with h | h
      · exact absurd h he
      · obtain ⟨v, hv⟩ := ih h
        exact ⟨v, by simp [alookup, if_neg he, hv]⟩

theorem mem_alookup {k : Str} {v : α} {l : List (Str × α)}
    (h : alookup k l = some v) : (k, v) ∈ l := by
  induction l with
  | nil => simp [alookup] at h
  | cons p rest ih =>
    by_cases he : k = p.1
    · simp only [alookup, if_pos he] at h
      obtain ⟨rfl⟩ := h
      subst he
      simp
    · simp only [alookup, if_neg he] at h
      exact List.mem_cons_of_mem _ (ih h)

theorem itProduct_length (ds : List (List α)) :
    (itProduct ds).length = sizeProd ds := by
  induction ds with
  | nil => rfl
  | cons d ds ih =>
    simp only [itProduct, sizeProd, List.map_cons, List.prod_cons]
    rw [List.length_flatMap]
    have hconst : (d.map (List.length ∘ fun v => (itProduct ds).map (v :: ·)))
        = d.map fun _ => sizeProd ds := by
      simp [Function.comp_def, ih]
    rw [hconst]
    simp [List.map_const', List.sum_replicate, smul_eq_mul, sizeProd]

theorem length_of_mem_itProduct {ds : List (List α)} {t : List α}
    (h : t ∈ itProduct ds) : t.length = ds.length := by
  induction ds generalizing t with
  | nil =>
    simp only [itProduct, List.mem_singleton] at h
    simp [h]
  | cons d ds ih =>
    simp only [itProduct, List.mem_flatMap, List.mem_map] at h
    obtain ⟨v, _, t', ht', rfl⟩ := h
    simp [ih ht']

theorem get_of_mem_itProduct {ds : List (List α)} {t : List α}
    (h : t ∈ itProduct ds) :
    ∀ i (hi : i < t.length) (hi' : i < ds.length), t.get ⟨i, hi⟩ ∈ ds.get ⟨i, hi'⟩ := by
  induction ds generalizing t with
  | nil => simp at *
  | cons d ds ih =>
    simp only [itProduct, List.mem_flatMap, List.mem_map] at h
    obtain ⟨v, hv, t', ht', rfl⟩ := h
    intro i hi hi'
    match i with
    | 0 => simpa using hv
    | Nat.succ j =>
      simp only [List.get_cons_succ]
      exact ih ht' j _ (by simpa using hi')

theorem mem_itProduct_of_forall {ds : List (List α)} {t : List α}
    (hlen : t.length = ds.length)
    (h : ∀ i (hi : i < t.length) (hi' : i < ds.length), t.get ⟨i, hi⟩ ∈ ds.get ⟨i, hi'⟩) :
    t ∈ itProduct ds := by
  induction ds generalizing t with
  | nil =>
    simp only [List.length_nil] at hlen
    simp [itProduct, List.eq_nil_of_length_eq_zero hlen]
  | cons d ds ih =>
    match t with
    | [] => simp at hlen
    | v :: t' =>
      simp only [itProduct, List.mem_flatMap, List.mem_map]
      refine ⟨v, by simpa using h 0 (by simp) (by simp), t', ?_, rfl⟩
      apply ih (by simpa using hlen)
      intro i hi hi'
      simpa using h (i + 1) (by simpa using hi) (by simpa using hi')

theorem itProduct_nodup {ds : List (List α)} (h : ∀ d ∈ ds, d.Nodup) :
    (itProduct ds).Nodup := by
  induction ds with
  | nil => simp [itProduct]
  | cons d ds ih =>
    have hd : d.Nodup := h d (List.mem_cons_self d ds)
    have hds : (itProduct ds).Nodup := ih (fun x hx => h x (List.mem_cons_of_mem d hx))
    simp only [itProduct]
    rw [List.nodup_flatMap]
    refine ⟨fun v _ => hds.map (fun a b hab => by simpa using hab), ?_⟩
    refine hd.imp ?_
    intro a b hne
    rw [Function.onFun, List.disjoint_left]
    rintro x hx hx'
    simp only [List.mem_map] at hx hx'
    obtain ⟨t1, _, rfl⟩ := hx
    obtain ⟨t2, _, he⟩ := hx'
    injection he with h1 _
    exact hne h1.symm

end GenericLemmas

/-- Insert into a sorted list, keyed by a boolean comparison. -/
def insSorted {α : Type} (le : α → α → Bool) (x : α) : List α → List α
  | [] => [x]
  | y :: ys => if le x y then x :: y :: ys else y :: insSorted le x ys

/-- Insertion sort, the embedding of an index sort (`sort_index`); only the
fact that it permutes its input is ever consumed. -/
def sortBy {α : Type} (le : α → α → Bool) : List α → List α
  | [] => []
  | x :: xs => insSorted le x (sortBy le xs)

section SortZipLemmas

variable {α β : Type}

theorem insSorted_perm (le : α → α → Bool) (x : α) (l : List α) :
    List.Perm (insSorted le x l) (x :: l) := by
  induction l with
  | nil => rfl
  | cons y ys ih =>
    simp only [insSorted]
    split
    · rfl
    · exact (List.Perm.cons y ih).trans (List.Perm.swap x y ys)

theorem sortBy_perm (le : α → α → Bool) (l : List α) : List.Perm (sortBy le l) l := by
  induction l with
  | nil => rfl
  | cons x xs ih =>
    exact (insSorted_perm le x (sortBy le xs)).trans (List.Perm.cons x ih)

theorem alookup_zip_get {fields : List Str} {vg : List α}
    (hnd : fields.Nodup) (hlen : vg.length = fields.length)
    (j : Nat) (hj : j < fields.length) (hj' : j < vg.length) :
    alookup (fields.get ⟨j, hj⟩) (fields.zip vg) = some (vg.get ⟨j, hj'⟩) := by
  induction fields generalizing vg j with
  | nil => simp at hj
  | cons f fs ih =>
    match vg with
    | [] => simp at hj'
    | v :: vs =>
      match j with
      | 0 => simp [alookup]
      | Nat.succ i =>
        have hne : fs.get ⟨i, by simpa using hj⟩ ≠ f := by
          intro he
          rw [List.nodup_cons] at hnd
          exact hnd.1 (he ▸ List.get_mem fs i (by simpa using hj))
        simp only [List.zip_cons_cons, List.get_cons_succ, alookup, if_neg hne]
        exact ih hnd.of_cons (by simpa using hlen) i (by simpa using hj) (by simpa using hj')

theorem getD_flatMap_uniform (dfltb : β) (dflta : α) (f : α → List β) (L : Nat)
    (hf : ∀ v, (f v).length = L) :
    ∀ (d : List α) (i : Nat), i < d.length * L →
      (d.flatMap f).getD i dfltb = (f (d.getD (i / L) dflta)).getD (i % L) dfltb := by
  intro d
  induction d with
  | nil => intro i hi; simp at hi
  | cons v d' ih =>
    intro i hi
    rcases Nat.eq_zero_or_pos L with hL | hL
    · rw [hL] at hi; simp at hi
    · simp only [List.flatMap_cons]
      by_cases hiL : i < L
      · rw [List.getD_append _ _ _ _ (by rw [hf v]; exact hiL)]
        rw [Nat.div_eq_of_lt hiL, Nat.mod_eq_of_lt hiL]
        simp
      · push_neg at hiL
        rw [List.getD_append_right _ _ _ _ (by rw [hf v]; exact hiL)]
        have hexp : (v :: d').length * L = d'.length * L + L := by
          simp only [List.length_cons]
          ring
        have hi' : i - L < d'.length * L := by
          rw [hexp] at hi
          omega
        rw [hf v, ih (i - L) hi']
        have hdiv : i / L = (i - L) / L + 1 := by
          rw [Nat.div_eq_sub_div hL hiL]
        have hmod : i % L = (i - L) % L := Nat.mod_eq_sub_mod hiL
        rw [hdiv, ← hmod]
        simp

theorem getD_itProduct_decode {α : Type} (dflt : α) :
    ∀ (ds : List (List α)) (i : Nat), i < sizeProd ds →
      (itProduct ds).getD i [] = decodeIx dflt ds i := by
  intro ds
  induction ds with
  | nil =>
    intro i hi
    have h0 : i = 0 := Nat.lt_one_iff.mp (by simpa [sizeProd] using hi)
    subst h0
    rfl
  | cons d ds ih =>
    intro i hi
    simp only [itProduct, decodeIx]
    have hlen : ∀ v, ((itProduct ds).map (v :: ·)).length = sizeProd ds := by
      intro v
      rw [List.length_map, itProduct_length]
    have hi' : i < d.length * sizeProd ds := by
      simpa [sizeProd, List.prod_cons] using hi
    rw [getD_flatMap_uniform [] dflt _ (sizeProd ds) hlen d i hi']
    have hmodlt : i % sizeProd ds < sizeProd ds := by
      apply Nat.mod_lt
      rcases Nat.eq_zero_or_pos (sizeProd ds) with h0 | h0
      · rw [h0] at hi'; simp at hi'
      · exact h0
    rw [List.getD_eq_getElem _ _ (by rw [List.length_map, itProduct_length]; exact hmodlt)]
    rw [List.getElem_map]
    rw [← List.getD_eq_getElem (itProduct ds) [] (by rw [itProduct_length]; exact hmodlt)]
    rw [ih _ hmodlt]

theorem mem_foldl_filter {p : β → α → Bool} (l : List β) (x : α) :
    ∀ init : List α,
      (x ∈ l.foldl (fun acc b => acc.filter (p b)) init ↔ x ∈ init ∧ ∀ b ∈ l, p b x) := by
  induction l with
  | nil => intro init; simp
  | cons b bs ih =>
    intro init
    simp only [List.foldl_cons]
    rw [ih]
    simp only [List.mem_filter, List.mem_cons]
    constructor
    · rintro ⟨⟨hx, hb⟩, hall⟩
      exact ⟨hx, fun c hc => by rcases hc with rfl | hc; exact hb; exact hall c hc⟩
    · rintro ⟨hx, hall⟩
      exact ⟨⟨hx, hall b (Or.inl rfl)⟩, fun c hc => hall c (Or.inr hc)⟩

theorem getLastD_cons (x d : α) (xs : List α) :
    (x :: xs).getLast?.getD d = xs.getLast?.getD x := by
  cases xs with
  | nil => rfl
  | cons y ys =>
    rw [List.getLast?_cons_cons]
    have hs : (y :: ys).getLast?.isSome = true := List.getLast?_isSome.mpr (by simp)
    obtain ⟨v, hv⟩ := Option.isSome_iff_exists.mp hs
    simp [hv]

theorem foldl_if_update_eq_getLast {m : β → Bool} {n : β → α} (l : List β) :
    ∀ init : α,
      l.foldl (fun cur st => if m st then n st else cur) init
        = (((l.filter m).map n).getLast?).getD init := by
  induction l with
  | nil => intro init; rfl
  | cons st l ih =>
    intro init
    simp only [List.foldl_cons]
    by_cases hm : m st
    · rw [if_pos hm, ih (n st), List.filter_cons_of_pos hm, List.map_cons, getLastD_cons]
    · rw [if_neg hm, ih init, List.filter_cons_of_neg hm]

end SortZipLemmas

/-!
### Embedding of `constants/data_keys.py` and `constants/models.py`

`TransitionString` lowercases the string it wraps, so a transition name is the
lowercased `FROM_TO_TO` string.
-/

/-- A `__SISModel` instance from `constants/models.py`, determined by its model name. -/
structure SISModel where
  MODEL_NAME : Str

def SISModel.SUSCEPTIBLE_STATE_NAME (m : SISModel) : Str :=
  str "susceptible_to_" ++ m.MODEL_NAME

def SISModel.STATE_NAME (m : SISModel) : Str := m.MODEL_NAME

def SISModel.STATES (m : SISModel) : List Str :=
  [m.SUSCEPTIBLE_STATE_NAME, m.STATE_NAME]

def SISModel.TRANSITIONS (m : SISModel) : List Str :=
  [lowerStr (m.SUSCEPTIBLE_STATE_NAME ++ str "_TO_" ++ m.STATE_NAME),
   lowerStr (m.STATE_NAME ++ str "_TO_" ++ m.SUSCEPTIBLE_STATE_NAME)]

def DIARRHEA : SISModel := ⟨str "diarrheal_diseases"⟩

def LRI : SISModel := ⟨str "lower_respiratory_infections"⟩

def MEASLES : SISModel := ⟨str "measles"⟩

/-- Modelled from the spec: `data_keys.MODERATE_PEM` is referenced by
`models.py` and `results.py` but its declaration is not among the provided
source files; its `name` is recovered from the spec's measure vocabulary and
the literal template prefix `moderate_protein_energy_malnutrition_` in
`results.py`. -/
def MODERATE_PEM : SISModel := ⟨str "moderate_protein_energy_malnutrition"⟩

/-- Modelled from the spec: `data_keys.SEVERE_PEM` is referenced by
`models.py` and `results.py` but its declaration is not among the provided
source files; its `name` is recovered from the spec's measure vocabulary and
the literal template prefix `severe_protein_energy_malnutrition_` in
`results.py`. -/
def SEVERE_PEM : SISModel := ⟨str "severe_protein_energy_malnutrition"⟩

/-!
### Embedding of `constants/results.py`

A Python format template is embedded as its parse: an alternation of literal
segments and named field slots (the only braces in the template literals are
the field delimiters, so `s!"\x7b{field}\x7d" in template` is exactly field
membership in the slot list).
-/

/-- One piece of a column-name template: a literal or a named field slot. -/
inductive Seg : Type
  | lit : Str → Seg
  | field : Str → Seg
deriving DecidableEq

/-- A column-name template is its list of segments. -/
abbrev Template := List Seg

/-- The fields referenced by a template, in template order. -/
def fieldsOf (t : Template) : List Str :=
  t.filterMap fun s =>
    match s with
    | .lit _ => none
    | .field f => some f

/-- Substitution of a field-valuation function into a template. -/
def renderF (t : Template) (va : Str → Str) : Str :=
  (t.map fun s =>
    match s with
    | .lit l => l
    | .field f => va f).flatten

/-- Python `template.format(**assignment)`: substitute each field slot. -/
def render (t : Template) (a : List (Str × Str)) : Str :=
  renderF t fun f => (alookup f a).getD []

def TOTAL_YLDS_COLUMN : Str := str "years_lived_with_disability"

def TOTAL_YLLS_COLUMN : Str := str "years_of_life_lost"

def INPUT_DRAW_COLUMN : Str := str "input_draw"

def RANDOM_SEED_COLUMN : Str := str "random_seed"

def OUTPUT_INPUT_DRAW_COLUMN : Str := str "input_data.input_draw_number"

def OUTPUT_RANDOM_SEED_COLUMN : Str := str "randomness.random_seed"

def OUTPUT_SCENARIO_COLUMN : Str := str "intervention.scenario"

/-- The values of the `STANDARD_COLUMNS` dict, in declaration order. -/
def STANDARD_COLUMNS_values : List Str :=
  [TOTAL_YLLS_COLUMN, TOTAL_YLDS_COLUMN]

def DEATH_COLUMN_TEMPLATE : Template :=
  [.lit (str "death_due_to_"), .field (str "CAUSE_OF_DEATH"), .lit (str "_year_"),
   .field (str "YEAR"), .lit (str "_sex_"), .field (str "SEX"), .lit (str "_age_"),
   .field (str "AGE_GROUP")]

def YLLS_COLUMN_TEMPLATE : Template :=
  [.lit (str "ylls_due_to_"), .field (str "CAUSE_OF_DEATH"), .lit (str "_year_"),
   .field (str "YEAR"), .lit (str "_sex_"), .field (str "SEX"), .lit (str "_age_"),
   .field (str "AGE_GROUP")]

def YLDS_COLUMN_TEMPLATE : Template :=
  [.lit (str "ylds_due_to_"), .field (str "CAUSE_OF_DISABILITY"), .lit (str "_year_"),
   .field (str "YEAR"), .lit (str "_sex_"), .field (str "SEX"), .lit (str "_age_"),
   .field (str "AGE_GROUP")]

def DIARRHEA_STATE_PERSON_TIME_COLUMN_TEMPLATE : Template :=
  [.lit (str "diarrheal_diseases_"), .field (str "DIARRHEA_STATE"),
   .lit (str "_person_time_year_"), .field (str "YEAR"), .lit (str "_sex_"),
   .field (str "SEX"), .lit (str "_age_"), .field (str "AGE_GROUP")]

def LRI_STATE_PERSON_TIME_COLUMN_TEMPLATE : Template :=
  [.lit (str "lower_respiratory_infections_"), .field (str "LRI_STATE"),
   .lit (str "_person_time_year_"), .field (str "YEAR"), .lit (str "_sex_"),
   .field (str "SEX"), .lit (str "_age_"), .field (str "AGE_GROUP")]

def MEASLES_STATE_PERSON_TIME_COLUMN_TEMPLATE : Template :=
  [.lit (str "measles_"), .field (str "MEASLES_STATE"),
   .lit (str "_person_time_year_"), .field (str "YEAR"), .lit (str "_sex_"),
   .field (str "SEX"), .lit (str "_age_"), .field (str "AGE_GROUP")]

def MODERATE_PEM_STATE_PERSON_TIME_COLUMN_TEMPLATE : Template :=
  [.lit (str "moderate_protein_energy_malnutrition_"), .field (str "MODERATE_PEM_STATE"),
   .lit (str "_person_time_year_"), .field (str "YEAR"), .lit (str "_sex_"),
   .field (str "SEX"), .lit (str "_age_"), .field (str "AGE_GROUP")]

def SEVERE_PEM_STATE_PERSON_TIME_COLUMN_TEMPLATE : Template :=
  [.lit (str "severe_protein_energy_malnutrition_"), .field (str "SEVERE_PEM_STATE"),
   .lit (str "_person_time_year_"), .field (str "YEAR"), .lit (str "_sex_"),
   .field (str "SEX"), .lit (str "_age_"), .field (str "AGE_GROUP")]

def DIARRHEA_TRANSITION_COUNT_COLUMN_TEMPLATE : Template :=
  [.lit (str "diarrheal_diseases_"), .field (str "DIARRHEA_TRANSITION"),
   .lit (str "_event_count_year_"), .field (str "YEAR"), .lit (str "_sex_"),
   .field (str "SEX"), .lit (str "_age_"), .field (str "AGE_GROUP")]

def LRI_TRANSITION_COUNT_COLUMN_TEMPLATE : Template :=
  [.lit (str "lower_respiratory_infections_"), .field (str "LRI_TRANSITION"),
   .lit (str "_event_count_year_"), .field (str "YEAR"), .lit (str "_sex_"),
   .field (str "SEX"), .lit (str "_age_"), .field (str "AGE_GROUP")]

def MEASLES_TRANSITION_COUNT_COLUMN_TEMPLATE : Template :=
  [.lit (str "measles_"), .field (str "MEASLES_TRANSITION"),
   .lit (str "_event_count_year_"), .field (str "YEAR"), .lit (str "_sex_"),
   .field (str "SEX"), .lit (str "_age_"), .field (str "AGE_GROUP")]

def MODERATE_PEM_TRANSITION_COUNT_COLUMN_TEMPLATE : Template :=
  [.lit (str "moderate_protein_energy_malnutrition_"), .field (str "MODERATE_PEM_TRANSITION"),
   .lit (str "_event_count_year_"), .field (str "YEAR"), .lit (str "_sex_"),
   .field (str "SEX"), .lit (str "_age_"), .field (str "AGE_GROUP")]

def SEVERE_PEM_TRANSITION_COUNT_COLUMN_TEMPLATE : Template :=
  [.lit (str "severe_protein_energy_malnutrition_"), .field (str "SEVERE_PEM_TRANSITION"),
   .lit (str "_event_count_year_"), .field (str "YEAR"), .lit (str "_sex_"),
   .field (str "SEX"), .lit (str "_age_"), .field (str "AGE_GROUP")]

def STUNTING_STATE_PERSON_TIME_COLUMN_TEMPLATE : Template :=
  [.lit (str "child_stunting_"), .field (str "CGF_RISK_STATE_NUMERIC"),
   .lit (str "_person_time_year_"), .field (str "YEAR"), .lit (str "_sex_"),
   .field (str "SEX"), .lit (str "_age_"), .field (str "AGE_GROUP"),
   .lit (str "_maternal_supplementation_"), .field (str "SUPPLEMENTATION"),
   .lit (str "_iv_iron_"), .field (str "IV_IRON")]

def WASTING_STATE_PERSON_TIME_COLUMN_TEMPLATE : Template :=
  [.lit (str "child_wasting_"), .field (str "CGF_RISK_STATE_NUMERIC"),
   .lit (str "_person_time_year_"), .field (str "YEAR"), .lit (str "_sex_"),
   .field (str "SEX"), .lit (str "_age_"), .field (str "AGE_GROUP"),
   .lit (str "_maternal_supplementation_"), .field (str "SUPPLEMENTATION"),
   .lit (str "_iv_iron_"), .field (str "IV_IRON")]

def LOW_BIRTH_WEIGHT_SHORT_GESTATION_SUB_RISK_SUM_COLUM_TEMPLATE : Template :=
  [.field (str "LBWSG_SUB_RISK"), .lit (str "_sum_year_"), .field (str "YEAR"),
   .lit (str "_sex_"), .field (str "SEX"), .lit (str "_maternal_supplementation_"),
   .field (str "SUPPLEMENTATION"), .lit (str "_iv_iron_"), .field (str "IV_IRON"),
   .lit (str "_bmi_anemia_"), .field (str "BMI_ANEMIA")]

def LIVE_BIRTHS_COLUMN_TEMPLATE : Template :=
  [.lit (str "live_births_year_"), .field (str "YEAR"), .lit (str "_sex_"),
   .field (str "SEX"), .lit (str "_maternal_supplementation_"),
   .field (str "SUPPLEMENTATION"), .lit (str "_iv_iron_"), .field (str "IV_IRON"),
   .lit (str "_bmi_anemia_"), .field (str "BMI_ANEMIA")]

def LOW_WEIGHT_BIRTHS_COLUMN_TEMPLATE : Template :=
  [.lit (str "low_weight_births_year_"), .field (str "YEAR"), .lit (str "_sex_"),
   .field (str "SEX"), .lit (str "_maternal_supplementation_"),
   .field (str "SUPPLEMENTATION"), .lit (str "_iv_iron_"), .field (str "IV_IRON"),
   .lit (str "_bmi_anemia_"), .field (str "BMI_ANEMIA")]

/-- The `COLUMN_TEMPLATES` dict, in declaration order. -/
def COLUMN_TEMPLATES : List (Str × Template) :=
  [(str "deaths", DEATH_COLUMN_TEMPLATE),
   (str "ylls", YLLS_COLUMN_TEMPLATE),
   (str "ylds", YLDS_COLUMN_TEMPLATE),
   (str "diarrhea_state_person_time", DIARRHEA_STATE_PERSON_TIME_COLUMN_TEMPLATE),
   (str "measles_state_person_time", MEASLES_STATE_PERSON_TIME_COLUMN_TEMPLATE),
   (str "lri_state_person_time", LRI_STATE_PERSON_TIME_COLUMN_TEMPLATE),
   (str "moderate_pem_state_person_time", MODERATE_PEM_STATE_PERSON_TIME_COLUMN_TEMPLATE),
   (str "severe_pem_state_person_time", SEVERE_PEM_STATE_PERSON_TIME_COLUMN_TEMPLATE),
   (str "diarrhea_transition_count", DIARRHEA_TRANSITION_COUNT_COLUMN_TEMPLATE),
   (str "measles_transition_count", MEASLES_TRANSITION_COUNT_COLUMN_TEMPLATE),
   (str "lri_transition_count", LRI_TRANSITION_COUNT_COLUMN_TEMPLATE),
   (str "moderate_pem_transition_count", MODERATE_PEM_TRANSITION_COUNT_COLUMN_TEMPLATE),
   (str "severe_pem_transition_count", SEVERE_PEM_TRANSITION_COUNT_COLUMN_TEMPLATE),
   (str "stunting_state_person_time", STUNTING_STATE_PERSON_TIME_COLUMN_TEMPLATE),
   (str "wasting_state_person_time", WASTING_STATE_PERSON_TIME_COLUMN_TEMPLATE),
   (str "low_birth_weight_and_short_gestation_sum",
     LOW_BIRTH_WEIGHT_SHORT_GESTATION_SUB_RISK_SUM_COLUM_TEMPLATE),
   (str "live_births_count", LIVE_BIRTHS_COLUMN_TEMPLATE),
   (str "low_weight_births_count", LOW_WEIGHT_BIRTHS_COLUMN_TEMPLATE)]

/-- `NON_COUNT_TEMPLATES` is declared empty in the source. -/
def NON_COUNT_TEMPLATES : List Str := []

def SEXES : List Str := [str "male", str "female"]

/-- `tuple(range(2025, 2041))`. -/
def YEARS : List Nat := List.range' 2025 16

def AGE_GROUPS : List Str :=
  [str "early_neonatal", str "late_neonatal", str "post_neonatal", str "1_to_4"]

def DICHOTOMOUS_RISK_STATES : List Str := [str "cat2", str "cat1"]

def CAUSES_OF_DEATH : List Str :=
  [str "other_causes", DIARRHEA.STATE_NAME, MEASLES.STATE_NAME, LRI.STATE_NAME,
   MODERATE_PEM.STATE_NAME, SEVERE_PEM.STATE_NAME]

def CAUSES_OF_DISABILITY : List Str :=
  [DIARRHEA.STATE_NAME, MEASLES.STATE_NAME, LRI.STATE_NAME,
   MODERATE_PEM.STATE_NAME, SEVERE_PEM.STATE_NAME]

/-- Modelled from the spec: `data_keys.CGFCategories` is referenced by
`results.py` but not declared in the provided source files; the spec names
child-growth-failure exposure categories.  The `CGF_RISK_STATE` field these
values populate occurs in no declared template, so no generated column
depends on this list. -/
def CGF_RISK_STATES : List Str :=
  [str "unexposed", str "mild", str "moderate", str "severe"]

def TETRACHOTOMTOUS_RISK_STATES : List Str :=
  [str "cat1", str "cat2", str "cat3", str "cat4"]

def LBWSG_SUB_RISKS : List Str := [str "birth_weight", str "gestational_age"]

def MATERNAL_SUPPLEMENTATION_TYPES : List Str :=
  [str "uncovered", str "ifa", str "mms", str "bep"]

def DICHOTOMOUS_COVERAGE_STATES : List Str := [str "uncovered", str "covered"]

/-- The `TEMPLATE_FIELD_MAP` dict, in declaration order.  Year values are
decimal-rendered exactly as Python `format` renders an int. -/
def TEMPLATE_FIELD_MAP : List (Str × List Str) :=
  [(str "YEAR", YEARS.map strOfNat),
   (str "SEX", SEXES),
   (str "AGE_GROUP", AGE_GROUPS),
   (str "CAUSE_OF_DEATH", CAUSES_OF_DEATH),
   (str "CAUSE_OF_DISABILITY", CAUSES_OF_DISABILITY),
   (str "DIARRHEA_STATE", DIARRHEA.STATES),
   (str "LRI_STATE", LRI.STATES),
   (str "MEASLES_STATE", MEASLES.STATES),
   (str "MODERATE_PEM_STATE", MODERATE_PEM.STATES),
   (str "SEVERE_PEM_STATE", SEVERE_PEM.STATES),
   (str "DIARRHEA_TRANSITION", DIARRHEA.TRANSITIONS),
   (str "LRI_TRANSITION", LRI.TRANSITIONS),
   (str "MEASLES_TRANSITION", MEASLES.TRANSITIONS),
   (str "MODERATE_PEM_TRANSITION", MODERATE_PEM.TRANSITIONS),
   (str "SEVERE_PEM_TRANSITION", SEVERE_PEM.TRANSITIONS),
   (str "CGF_RISK_STATE", CGF_RISK_STATES),
   (str "CGF_RISK_STATE_NUMERIC", TETRACHOTOMTOUS_RISK_STATES),
   (str "LBWSG_SUB_RISK", LBWSG_SUB_RISKS),
   (str "SUPPLEMENTATION", MATERNAL_SUPPLEMENTATION_TYPES),
   (str "IV_IRON", DICHOTOMOUS_COVERAGE_STATES),
   (str "BMI_ANEMIA", TETRACHOTOMTOUS_RISK_STATES)]

/-- The filtered field map of one template: the entries of
`TEMPLATE_FIELD_MAP`, in map declaration order, whose field occurs in the
template. -/
def filteredFieldMap (t : Template) : List (Str × List Str) :=
  TEMPLATE_FIELD_MAP.filter fun p => decide (p.1 ∈ fieldsOf t)

/-- The field-value tuples substituted into one template, in generation order
(`itertools.product` of the filtered field map's value lists). -/
def tuplesFor (t : Template) : List (List Str) :=
  itProduct ((filteredFieldMap t).map Prod.snd)

/-- The generated columns of one template, in generation order. -/
def resultColumnsFor (t : Template) : List Str :=
  (tuplesFor t).map fun vg => render t (((filteredFieldMap t).map Prod.fst).zip vg)

/-- `RESULT_COLUMNS`: `none` models the `ValueError` raised on an unknown
measure name. -/
def RESULT_COLUMNS (kind : Str) : Option (List Str) :=
  if kind ∉ COLUMN_TEMPLATES.map Prod.fst ∧ kind ≠ str "all" then none
  else if kind = str "all" then
    some (STANDARD_COLUMNS_values
      ++ COLUMN_TEMPLATES.flatMap fun p => resultColumnsFor p.2)
  else (alookup kind COLUMN_TEMPLATES).map resultColumnsFor

/-- The dataframe built by `RESULTS_MAP`: its non-key columns (the lowercased
field names, plus the constant `measure` column embedded per row), and its
rows keyed by generated column name, sorted by key as `sort_index` does. -/
structure ResultsMapDF where
  fields : List Str
  rows : List (Str × List Str × Str)
deriving DecidableEq

/-- Lexicographic comparison of the index keys, the order `sort_index` sorts by. -/
def strLeb : Str → Str → Bool
  | [], _ => true
  | _ :: _, [] => false
  | a :: as, b :: bs =>
    if a.toNat < b.toNat then true
    else if a.toNat = b.toNat then strLeb as bs
    else false

/-- `RESULTS_MAP`: `none` models the `ValueError` raised on an unknown measure
name; otherwise the parse dataframe, indexed by column name and sorted by
index. -/
def RESULTS_MAP (kind : Str) : Option ResultsMapDF :=
  (alookup kind COLUMN_TEMPLATES).map fun t =>
    let ffm := filteredFieldMap t
    let fields := ffm.map Prod.fst
    let vgs := tuplesFor t
    let columns := vgs.map fun vg => render t (fields.zip vg)
    { fields := fields.map lowerStr
      rows := sortBy (fun a b => strLeb a.1 b.1)
        (columns.zip (vgs.map fun vg => (vg, kind))) }

/-!
### Injectivity of template instantiation

The generated column strings are concatenations
`lit ++ value ++ lit ++ value ++ …`.  Injectivity follows from a prefix-code
condition per field slot: two domain values followed by the same literal
separator can only align when they are equal.  The condition is checked by a
decidable scan over the (small) value domains.
-/

/-- The value domain of a field, as `TEMPLATE_FIELD_MAP` declares it. -/
def domOf (f : Str) : List Str := (alookup f TEMPLATE_FIELD_MAP).getD []

/-- Separator-code property of a value domain with respect to the literal that
follows it in a template. -/
def SepCode (D : List Str) (sep : Str) : Prop :=
  ∀ a ∈ D, ∀ b ∈ D, ∀ s t : Str, a ++ sep ++ s = b ++ sep ++ t → a = b ∧ s = t

/-- Decidable sufficient check for `SepCode`. -/
def sepCodeCheck (D : List Str) (sep : Str) : Bool :=
  D.all fun a => D.all fun b => !(a ++ sep).isPrefixOf (b ++ sep) || a == b

theorem sepCode_of_check {D : List Str} {sep : Str}
    (h : sepCodeCheck D sep = true) : SepCode D sep := by
  have hchk : ∀ a ∈ D, ∀ b ∈ D, (a ++ sep) <+: (b ++ sep) → a = b := by
    intro a ha b hb hpre
    have := List.all_eq_true.mp (List.all_eq_true.mp h a ha) b hb
    rcases Bool.or_eq_true _ _ |>.mp this with hx | hx
    · rw [ List.isPrefixOf_iff_prefix.mpr hpre] at hx
      simp at hx
    · exact by simpa using hx
  intro a ha b hb s t heq
  have key : a = b := by
    rcases Nat.le_total (a ++ sep).length (b ++ sep).length with hle | hle
    · have hpa : (a ++ sep) <+: (b ++ sep) ++ t := ⟨s, heq⟩
      have hpb : (b ++ sep) <+: (b ++ sep) ++ t := List.prefix_append _ _
      exact hchk a ha b hb (List.prefix_of_prefix_length_le hpa hpb hle)
    · have hpa : (a ++ sep) <+: (a ++ sep) ++ s := List.prefix_append _ _
      have hpb : (b ++ sep) <+: (a ++ sep) ++ s := ⟨t, heq.symm⟩
      exact (hchk b hb a ha (List.prefix_of_prefix_length_le hpb hpa hle)).symm
  subst key
  exact ⟨rfl, List.append_cancel_left heq⟩

/-- Structural well-formedness of a template for injective instantiation:
every field slot is followed by a literal separator satisfying the
separator-code condition, except a final field slot, where equality of the
remaining suffixes forces equality of values directly. -/
def goodSegs : Template → Prop
  | .field f :: .lit sep :: rest => SepCode (domOf f) sep ∧ goodSegs rest
  | .field _ :: [] => True
  | .field _ :: .field _ :: _ => False
  | .lit _ :: rest => goodSegs rest
  | [] => True

/-- Decidable counterpart of `goodSegs`. -/
def goodSegsCheck : Template → Bool
  | .field f :: .lit sep :: rest => sepCodeCheck (domOf f) sep && goodSegsCheck rest
  | .field _ :: [] => true
  | .field _ :: .field _ :: _ => false
  | .lit _ :: rest => goodSegsCheck rest
  | [] => true

theorem goodSegs_of_check : ∀ t : Template, goodSegsCheck t = true → goodSegs t
  | [], _ => trivial
  | [.field _], _ => trivial
  | .field _ :: .field _ :: _, h => by simp [goodSegsCheck] at h
  | .lit _ :: rest, h => by
    have := goodSegs_of_check rest (by simpa [goodSegsCheck] using h)
    simpa [goodSegs] using this
  | .field f :: .lit sep :: rest, h => by
    rw [show goodSegsCheck (.field f :: .lit sep :: rest)
        = (sepCodeCheck (domOf f) sep && goodSegsCheck rest) from rfl] at h
    rcases Bool.and_eq_true _ _ |>.mp h with ⟨h1, h2⟩
    exact ⟨sepCode_of_check h1, goodSegs_of_check rest h2⟩

theorem render_inj : ∀ t : Template, goodSegs t → ∀ va vb : Str → Str,
    (∀ f ∈ fieldsOf t, va f ∈ domOf f) → (∀ f ∈ fieldsOf t, vb f ∈ domOf f) →
    renderF t va = renderF t vb → ∀ f ∈ fieldsOf t, va f = vb f
  | [], _, va, vb, _, _, _ => by simp [fieldsOf]
  | .lit l :: rest, hg, va, vb, hma, hmb, heq => by
    have hg' : goodSegs rest := by
      cases rest with
      | nil => trivial
      | cons s rest' =>
        cases s with
        | lit l' => exact hg
        | field f' =>
          cases rest' with
          | nil => trivial
          | cons s' rest'' =>
            cases s' with
            | lit l' => exact hg
            | field f'' => exact hg.elim
    have heq' : renderF rest va = renderF rest vb := by
      simp only [renderF, List.map_cons, List.flatten_cons] at heq
      exact List.append_cancel_left heq
    have hfields : fieldsOf (Seg.lit l :: rest) = fieldsOf rest := by
      simp [fieldsOf]
    rw [hfields] at hma hmb ⊢
    exact render_inj rest hg' va vb hma hmb heq'
  | [.field f], _, va, vb, _, _, heq => by
    intro g hg
    have hgf : g = f := by simpa [fieldsOf] using hg
    subst hgf
    simpa [renderF] using heq
  | .field f :: .lit sep :: rest, hg, va, vb, hma, hmb, heq => by
    obtain ⟨hsep, hgrest⟩ := hg
    have hf : f ∈ fieldsOf (Seg.field f :: Seg.lit sep :: rest) := by simp [fieldsOf]
    have heq' : (va f ++ sep) ++ renderF rest va = (vb f ++ sep) ++ renderF rest vb := by
      simpa [renderF, List.append_assoc] using heq
    obtain ⟨hval, hrest⟩ :=
      hsep (va f) (hma f hf) (vb f) (hmb f hf) (renderF rest va) (renderF rest vb)
        (by simpa [List.append_assoc] using heq')
    intro g hgmem
    rcases (by simpa [fieldsOf] using hgmem : g = f ∨ g ∈ fieldsOf rest) with rfl | hgrest'
    · exact hval
    · exact render_inj rest hgrest va vb
        (fun x hx => hma x (by simp [fieldsOf]; right; exact (by simpa [fieldsOf] using hx)))
        (fun x hx => hmb x (by simp [fieldsOf]; right; exact (by simpa [fieldsOf] using hx)))
        hrest g hgrest'

/-- All per-template side conditions, as one decidable scan: the separator
codes hold, every referenced field has a declared value domain, and every
referenced value domain is duplicate-free. -/
def templateChecks (t : Template) : Bool :=
  goodSegsCheck t
    && (fieldsOf t).all (fun f => decide (f ∈ TEMPLATE_FIELD_MAP.map Prod.fst))
    && (filteredFieldMap t).all (fun p => decide p.2.Nodup)

theorem TFM_keys_nodup : (TEMPLATE_FIELD_MAP.map Prod.fst).Nodup := by decide

theorem fields_nodup (t : Template) :
    ((filteredFieldMap t).map Prod.fst).Nodup :=
  ((List.filter_sublist TEMPLATE_FIELD_MAP).map Prod.fst).nodup TFM_keys_nodup

theorem mem_filteredFieldMap {t : Template} {p : Str × List Str}
    (h : p ∈ filteredFieldMap t) : p ∈ TEMPLATE_FIELD_MAP ∧ p.1 ∈ fieldsOf t := by
  have := List.mem_filter.mp h
  exact ⟨this.1, of_decide_eq_true this.2⟩

theorem domOf_of_mem_ffm {t : Template} {p : Str × List Str}
    (h : p ∈ filteredFieldMap t) : domOf p.1 = p.2 := by
  have hT : p ∈ TEMPLATE_FIELD_MAP := (mem_filteredFieldMap h).1
  have : alookup p.1 TEMPLATE_FIELD_MAP = some p.2 :=
    alookup_of_mem_nodup TFM_keys_nodup hT
  simp [domOf, this]

theorem mem_ffm_keys_of_field {t : Template} {f : Str}
    (hf : f ∈ fieldsOf t) (hcov : f ∈ TEMPLATE_FIELD_MAP.map Prod.fst) :
    f ∈ (filteredFieldMap t).map Prod.fst := by
  rcases List.mem_map.mp hcov with ⟨p, hp, rfl⟩
  exact List.mem_map_of_mem Prod.fst
    (List.mem_filter.mpr ⟨hp, decide_eq_true hf⟩)

theorem tuple_length {t : Template} {vg : List Str} (h : vg ∈ tuplesFor t) :
    vg.length = ((filteredFieldMap t).map Prod.fst).length := by
  have := length_of_mem_itProduct h
  simpa using this

theorem va_eq_get {t : Template} {vg : List Str} (hvg : vg ∈ tuplesFor t)
    (j : Nat) (hj : j < ((filteredFieldMap t).map Prod.fst).length)
    (hj' : j < vg.length) :
    (alookup (((filteredFieldMap t).map Prod.fst).get ⟨j, hj⟩)
      (((filteredFieldMap t).map Prod.fst).zip vg)).getD []
      = vg.get ⟨j, hj'⟩ := by
  rw [alookup_zip_get (fields_nodup t) (tuple_length hvg) j hj hj']
  rfl

theorem va_mem_domOf {t : Template} {vg : List Str} (hvg : vg ∈ tuplesFor t)
    (hcov : ∀ f ∈ fieldsOf t, f ∈ TEMPLATE_FIELD_MAP.map Prod.fst) :
    ∀ f ∈ fieldsOf t,
      (alookup f (((filteredFieldMap t).map Prod.fst).zip vg)).getD [] ∈ domOf f := by
  intro f hf
  have hfk : f ∈ (filteredFieldMap t).map Prod.fst := mem_ffm_keys_of_field hf (hcov f hf)
  obtain ⟨⟨j, hj⟩, hget⟩ := List.mem_iff_get.mp hfk
  have hj' : j < vg.length := by rw [tuple_length hvg]; exact hj
  rw [← hget, va_eq_get hvg j hj hj']
  have hjd : j < ((filteredFieldMap t).map Prod.snd).length := by simpa using hj
  have hmem : vg.get ⟨j, hj'⟩ ∈ ((filteredFieldMap t).map Prod.snd).get ⟨j, hjd⟩ :=
    get_of_mem_itProduct hvg j hj' hjd
  have hjf : j < (filteredFieldMap t).length := by simpa using hj
  have h1 : ((filteredFieldMap t).map Prod.fst).get ⟨j, hj⟩
      = ((filteredFieldMap t).get ⟨j, hjf⟩).1 := by
    simp [List.get_eq_getElem, List.getElem_map]
  have h2 : ((filteredFieldMap t).map Prod.snd).get ⟨j, hjd⟩
      = ((filteredFieldMap t).get ⟨j, hjf⟩).2 := by
    simp [List.get_eq_getElem, List.getElem_map]
  have hpmem : (filteredFieldMap t).get ⟨j, hjf⟩ ∈ filteredFieldMap t :=
    List.get_mem _ j hjf
  rw [h1, domOf_of_mem_ffm hpmem, ← h2]
  exact hmem

theorem resultColumnsFor_nodup (t : Template) (hchk : templateChecks t = true) :
    (resultColumnsFor t).Nodup := by
  have hparts := Bool.and_eq_true _ _ |>.mp hchk
  have hparts' := Bool.and_eq_true _ _ |>.mp hparts.1
  have hg : goodSegs t := goodSegs_of_check t hparts'.1
  have hcov : ∀ f ∈ fieldsOf t, f ∈ TEMPLATE_FIELD_MAP.map Prod.fst := by
    intro f hf
    exact of_decide_eq_true (List.all_eq_true.mp hparts'.2 f hf)
  have hdom : ∀ p ∈ filteredFieldMap t, (p.2 : List Str).Nodup := by
    intro p hp
    exact of_decide_eq_true (List.all_eq_true.mp hparts.2 p hp)
  have htup : (tuplesFor t).Nodup := by
    apply itProduct_nodup
    intro D hD
    rcases List.mem_map.mp hD with ⟨p, hp, rfl⟩
    exact hdom p hp
  apply List.Nodup.map_on ?_ htup
  intro vg hvg wg hwg heq
  have hlenv := tuple_length hvg
  have hlenw := tuple_length hwg
  have hagree := render_inj t hg
    (fun f => (alookup f (((filteredFieldMap t).map Prod.fst).zip vg)).getD [])
    (fun f => (alookup f (((filteredFieldMap t).map Prod.fst).zip wg)).getD [])
    (va_mem_domOf hvg hcov) (va_mem_domOf hwg hcov) heq
  apply List.ext_get (by rw [hlenv, hlenw])
  intro j hjv hjw
  have hj : j < ((filteredFieldMap t).map Prod.fst).length := by rw [← hlenv]; exact hjv
  have hjf : j < (filteredFieldMap t).length := by simpa using hj
  have hfmem : ((filteredFieldMap t).map Prod.fst).get ⟨j, hj⟩ ∈ fieldsOf t := by
    have h1 : ((filteredFieldMap t).map Prod.fst).get ⟨j, hj⟩
        = ((filteredFieldMap t).get ⟨j, hjf⟩).1 := by
      simp [List.get_eq_getElem, List.getElem_map]
    rw [h1]
    exact (mem_filteredFieldMap (List.get_mem _ j hjf)).2
  have hthis : (alookup (((filteredFieldMap t).map Prod.fst).get ⟨j, hj⟩)
        (((filteredFieldMap t).map Prod.fst).zip vg)).getD []
      = (alookup (((filteredFieldMap t).map Prod.fst).get ⟨j, hj⟩)
        (((filteredFieldMap t).map Prod.fst).zip wg)).getD [] := hagree _ hfmem
  rw [va_eq_get hvg j hj hjv, va_eq_get hwg j hj hjw] at hthis
  exact hthis

set_option maxHeartbeats 1000000 in
theorem all_templates_ok : ∀ p ∈ COLUMN_TEMPLATES, templateChecks p.2 = true := by decide

theorem RESULT_COLUMNS_declared {kind : Str} {t : Template}
    (hk : alookup kind COLUMN_TEMPLATES = some t) :
    RESULT_COLUMNS kind = some (resultColumnsFor t) := by
  have hmem : (kind, t) ∈ COLUMN_TEMPLATES := mem_alookup hk
  have hkeys : kind ∈ COLUMN_TEMPLATES.map Prod.fst := List.mem_map_of_mem Prod.fst hmem
  have hall : (str "all") ∉ COLUMN_TEMPLATES.map Prod.fst := by decide
  have hne : kind ≠ str "all" := fun he => hall (he ▸ hkeys)
  simp only [RESULT_COLUMNS]
  rw [if_neg (fun h => h.1 hkeys), if_neg hne, hk]
  rfl

/-- C1.  Round-trip law: for every measure declared in `COLUMN_TEMPLATES` and
every index `i`, the `i`-th column generated by `RESULT_COLUMNS` is the
template instantiated at the `i`-th field-value tuple, and looking that
column name up in the `RESULTS_MAP` parse table recovers exactly that tuple
(together with the constant measure tag). -/
theorem c1_round_trip_law (kind : Str) (t : Template)
    (hk : alookup kind COLUMN_TEMPLATES = some t) :
    ∃ cols mp, RESULT_COLUMNS kind = some cols ∧ RESULTS_MAP kind = some mp ∧
      cols.length = (tuplesFor t).length ∧
      ∀ i (hi : i < cols.length) (hi' : i < (tuplesFor t).length),
        cols.get ⟨i, hi⟩
            = render t (((filteredFieldMap t).map Prod.fst).zip ((tuplesFor t).get ⟨i, hi'⟩))
          ∧ alookup (cols.get ⟨i, hi⟩) mp.rows = some ((tuplesFor t).get ⟨i, hi'⟩, kind) := by
  have hchk : templateChecks t = true := all_templates_ok (kind, t) (mem_alookup hk)
  refine ⟨resultColumnsFor t, ?_, RESULT_COLUMNS_declared hk, ?_, ?_, ?_⟩
  · exact { fields := ((filteredFieldMap t).map Prod.fst).map lowerStr
            rows := sortBy (fun a b => strLeb a.1 b.1)
              (((tuplesFor t).map fun vg =>
                  render t (((filteredFieldMap t).map Prod.fst).zip vg)).zip
                ((tuplesFor t).map fun vg => (vg, kind))) }
  · simp [RESULTS_MAP, hk, resultColumnsFor]
  · simp [resultColumnsFor]
  · intro i hi hi'
    have hcols_get : (resultColumnsFor t).get ⟨i, hi⟩
        = render t (((filteredFieldMap t).map Prod.fst).zip ((tuplesFor t).get ⟨i, hi'⟩)) := by
      simp [resultColumnsFor, List.get_eq_getElem, List.getElem_map]
    refine ⟨hcols_get, ?_⟩
    set cols := resultColumnsFor t with hcolsdef
    set pairs := (cols.zip ((tuplesFor t).map fun vg => (vg, kind))) with hpairsdef
    have hlencols : cols.length = (tuplesFor t).length := by simp [hcolsdef, resultColumnsFor]
    have hlenpairs : pairs.length = (tuplesFor t).length := by
      simp [hpairsdef, hlencols]
    have hkeyspairs : pairs.map Prod.fst = cols := by
      apply List.map_fst_zip
      simp [hlencols]
    have hnodupkeys : (pairs.map Prod.fst).Nodup := by
      rw [hkeyspairs]
      exact resultColumnsFor_nodup t hchk
    have hperm : List.Perm (sortBy (fun a b => strLeb a.1 b.1) pairs) pairs :=
      sortBy_perm _ _
    have hmempair : (cols.get ⟨i, hi⟩, ((tuplesFor t).get ⟨i, hi'⟩, kind)) ∈ pairs := by
      have hip : i < pairs.length := by rw [hlenpairs]; exact hi'
      have : pairs.get ⟨i, hip⟩
          = (cols.get ⟨i, hi⟩, ((tuplesFor t).get ⟨i, hi'⟩, kind)) := by
        simp [hpairsdef, List.get_eq_getElem, List.getElem_zip, List.getElem_map]
      rw [← this]
      exact List.get_mem _ i hip
    have hnodupsorted : ((sortBy (fun a b => strLeb a.1 b.1) pairs).map Prod.fst).Nodup :=
      ((hperm.map Prod.fst).nodup_iff).mpr hnodupkeys
    exact alookup_of_mem_nodup hnodupsorted (hperm.mem_iff.mpr hmempair)

/-- Witness for `c1_round_trip_law` at the measure `deaths`. -/
theorem c1_round_trip_law_witness :
    ∃ cols mp, RESULT_COLUMNS (str "deaths") = some cols ∧
      RESULTS_MAP (str "deaths") = some mp ∧
      cols.length = (tuplesFor DEATH_COLUMN_TEMPLATE).length ∧
      ∀ i (hi : i < cols.length) (hi' : i < (tuplesFor DEATH_COLUMN_TEMPLATE).length),
        cols.get ⟨i, hi⟩
            = render DEATH_COLUMN_TEMPLATE
                (((filteredFieldMap DEATH_COLUMN_TEMPLATE).map Prod.fst).zip
                  ((tuplesFor DEATH_COLUMN_TEMPLATE).get ⟨i, hi'⟩))
          ∧ alookup (cols.get ⟨i, hi⟩) mp.rows
              = some ((tuplesFor DEATH_COLUMN_TEMPLATE).get ⟨i, hi'⟩, str "deaths") :=
  c1_round_trip_law (str "deaths") DEATH_COLUMN_TEMPLATE rfl

/-- Modelled from the spec claim for comparison: a column generator that
enumerates the cartesian product in template (leftmost-slowest) field order
rather than in `TEMPLATE_FIELD_MAP` declaration order. -/
def claimedTemplateOrderColumnsFor (t : Template) : List Str :=
  (itProduct ((fieldsOf t).map domOf)).map fun vg => render t ((fieldsOf t).zip vg)

/-- C2 counterexample.  For the declared measure `deaths`, whose template
lists `CAUSE_OF_DEATH` leftmost, the second generated column already varies
the cause (the last entry of `TEMPLATE_FIELD_MAP`), while leftmost-slowest
template order would vary the age group; so the two generators disagree at
index 1. -/
theorem c2_counterexample :
    ((RESULT_COLUMNS (str "deaths")).getD []).getD 1 []
        = str "death_due_to_diarrheal_diseases_year_2025_sex_male_age_early_neonatal"
      ∧ (claimedTemplateOrderColumnsFor DEATH_COLUMN_TEMPLATE).getD 1 []
        = str "death_due_to_other_causes_year_2025_sex_male_age_late_neonatal"
      ∧ ((RESULT_COLUMNS (str "deaths")).getD []).getD 1 []
        ≠ (claimedTemplateOrderColumnsFor DEATH_COLUMN_TEMPLATE).getD 1 [] := by
  refine ⟨by decide, by decide, by decide⟩

/-- C2 amended.  `RESULT_COLUMNS` enumerates the cartesian product of the
value domains of the fields referenced by the measure's template, ordered by
`TEMPLATE_FIELD_MAP` declaration order (not template order): the
earliest-declared field varies slowest and the latest-declared field varies
fastest, so column `i` is the template instantiated at the mixed-radix
decomposition of `i` over the filtered domain sizes. -/
theorem c2_field_map_order (kind : Str) (t : Template)
    (hk : alookup kind COLUMN_TEMPLATES = some t) :
    ∃ cols, RESULT_COLUMNS kind = some cols ∧
      cols.length = sizeProd ((filteredFieldMap t).map Prod.snd) ∧
      ∀ i, i < cols.length →
        cols.getD i [] = render t (((filteredFieldMap t).map Prod.fst).zip
          (decodeIx [] ((filteredFieldMap t).map Prod.snd) i)) := by
  refine ⟨resultColumnsFor t, RESULT_COLUMNS_declared hk, ?_, ?_⟩
  · simp [resultColumnsFor, tuplesFor, itProduct_length]
  · intro i hi
    have hlen : (resultColumnsFor t).length = (tuplesFor t).length := by
      simp [resultColumnsFor]
    have hi' : i < (tuplesFor t).length := hlen ▸ hi
    have hsz : i < sizeProd ((filteredFieldMap t).map Prod.snd) := by
      rw [← itProduct_length]
      exact hi'
    have h1 : (resultColumnsFor t).getD i []
        = render t (((filteredFieldMap t).map Prod.fst).zip ((tuplesFor t).getD i [])) := by
      rw [List.getD_eq_getElem _ _ hi, List.getD_eq_getElem _ _ hi']
      simp [resultColumnsFor, List.getElem_map]
    rw [h1]
    have h2 : (tuplesFor t).getD i [] = decodeIx [] ((filteredFieldMap t).map Prod.snd) i :=
      getD_itProduct_decode [] _ i hsz
    rw [h2]

/-- Witness for `c2_field_map_order` at the measure `deaths`. -/
theorem c2_field_map_order_witness :
    ∃ cols, RESULT_COLUMNS (str "deaths") = some cols ∧
      cols.length = sizeProd ((filteredFieldMap DEATH_COLUMN_TEMPLATE).map Prod.snd) ∧
      ∀ i, i < cols.length →
        cols.getD i []
          = render DEATH_COLUMN_TEMPLATE
              (((filteredFieldMap DEATH_COLUMN_TEMPLATE).map Prod.fst).zip
                (decodeIx [] ((filteredFieldMap DEATH_COLUMN_TEMPLATE).map Prod.snd) i)) :=
  c2_field_map_order (str "deaths") DEATH_COLUMN_TEMPLATE rfl

/-- C8.  Requesting the column list or the parse map for a measure name that
is not declared in `COLUMN_TEMPLATES` errors immediately (embedded as `none`,
the `ValueError` branch): no columns are returned.  (`RESULT_COLUMNS` only
admits the extra pseudo-measure `all`.) -/
theorem c8_unknown_measure (kind : Str)
    (h : kind ∉ COLUMN_TEMPLATES.map Prod.fst) :
    (kind ≠ str "all" → RESULT_COLUMNS kind = none) ∧ RESULTS_MAP kind = none := by
  constructor
  · intro hne
    simp only [RESULT_COLUMNS]
    rw [if_pos ⟨h, hne⟩]
  · simp only [RESULTS_MAP]
    rw [alookup_eq_none h]
    rfl

/-- Witness for `c8_unknown_measure` at the undeclared name `foo`. -/
theorem c8_unknown_measure_witness :
    (str "foo" ≠ str "all" → RESULT_COLUMNS (str "foo") = none)
      ∧ RESULTS_MAP (str "foo") = none :=
  c8_unknown_measure (str "foo") (by decide)

/-!
### Embedding of `results_processing/process_results.py`

A record row carries its identity columns (`input_draw`, `random_seed`,
`scenario`) as typed fields and its remaining data columns as a value list.
Python `set` objects are embedded as deduplicated lists; only membership in
them is ever consumed.
-/

def SCENARIO_COLUMN : Str := str "scenario"

def GROUPBY_COLUMNS : List Str := [INPUT_DRAW_COLUMN, SCENARIO_COLUMN]

/-- One row of the combined multi-run record table. -/
structure SimRow where
  draw : Int
  seed : Int
  scenario : Str
  vals : List Rat
deriving DecidableEq

/-- The keyspace descriptor: the declared draws, seeds and scenarios. -/
structure Keyspace where
  draws : List Int
  seeds : List Int
  scenarios : List Str
deriving DecidableEq

/-- The seeds present in the given rows for one scenario
(`draw_data.loc[data[SCENARIO_COLUMN] == scenario, RANDOM_SEED_COLUMN].unique()`). -/
def seedsPresent (rows : List SimRow) (sc : Str) : List Int :=
  ((rows.filter fun r => decide (r.scenario = sc)).map SimRow.seed).dedup

/-- The rows of one draw (`data.loc[data[INPUT_DRAW_COLUMN] == draw]`). -/
def drawFilter (data : List SimRow) (d : Int) : List SimRow :=
  data.filter fun r => decide (r.draw = d)

/-- The per-draw complete seed set: the declared seeds intersected with the
seeds present in every scenario of that draw. -/
def completeSeeds (data : List SimRow) (ks : Keyspace) (d : Int) : List Int :=
  ks.scenarios.foldl
    (fun acc sc => acc.filter fun s => decide (s ∈ seedsPresent (drawFilter data d) sc))
    ks.seeds.dedup

/-- `filter_out_incomplete`: per declared draw, keep the draw's rows whose seed
survived the per-scenario intersection, concatenated in declared draw order. -/
def filter_out_incomplete (data : List SimRow) (ks : Keyspace) : List SimRow :=
  ks.draws.flatMap fun draw =>
    (drawFilter data draw).filter fun r => decide (r.seed ∈ completeSeeds data ks draw)

theorem mem_seedsPresent {rows : List SimRow} {sc : Str} {s : Int} :
    s ∈ seedsPresent rows sc ↔ ∃ r ∈ rows, r.scenario = sc ∧ r.seed = s := by
  simp only [seedsPresent, List.mem_dedup, List.mem_map, List.mem_filter,
    decide_eq_true_eq]
  constructor
  · rintro ⟨r, ⟨hr, hsc⟩, hs⟩
    exact ⟨r, hr, hsc, hs⟩
  · rintro ⟨r, hr, hsc, hs⟩
    exact ⟨r, ⟨hr, hsc⟩, hs⟩

theorem mem_completeSeeds {data : List SimRow} {ks : Keyspace} {d : Int} {x : Int} :
    x ∈ completeSeeds data ks d
      ↔ x ∈ ks.seeds ∧ ∀ sc ∈ ks.scenarios, x ∈ seedsPresent (drawFilter data d) sc := by
  rw [completeSeeds, mem_foldl_filter]
  simp [List.mem_dedup]

theorem mem_filter_out_incomplete {data : List SimRow} {ks : Keyspace} {r : SimRow} :
    r ∈ filter_out_incomplete data ks
      ↔ ∃ d ∈ ks.draws, r.draw = d ∧ r ∈ data ∧ r.seed ∈ completeSeeds data ks d := by
  simp only [filter_out_incomplete, List.mem_flatMap, List.mem_filter, drawFilter,
    decide_eq_true_eq]
  constructor
  · rintro ⟨d, hd, ⟨⟨hr, hdraw⟩, hseed⟩⟩
    exact ⟨d, hd, hdraw, hr, hseed⟩
  · rintro ⟨d, hd, hdraw, hr, hseed⟩
    exact ⟨d, hd, ⟨⟨hr, hdraw⟩, hseed⟩⟩

/-- Scenario B keyspace: draws 0 and 1, seeds 10 and 20, scenarios baseline
and intervention. -/
def scenarioB_keyspace : Keyspace :=
  ⟨[0, 1], [10, 20], [str "baseline", str "intervention"]⟩

/-- Scenario B data: every (draw, seed, scenario) combination completed except
draw 0, seed 20 of the intervention scenario. -/
def scenarioB_data : List SimRow :=
  [⟨0, 10, str "baseline", []⟩, ⟨0, 20, str "baseline", []⟩,
   ⟨0, 10, str "intervention", []⟩,
   ⟨1, 10, str "baseline", []⟩, ⟨1, 20, str "baseline", []⟩,
   ⟨1, 10, str "intervention", []⟩, ⟨1, 20, str "intervention", []⟩]

/-- C4.  Completion filtering retains a row only if every declared scenario
has a row with the same draw and seed; concretely, with draw 0's seed 20
missing from the intervention scenario, draw 0's baseline seed-20 row is also
dropped and draw 1 is unaffected. -/
theorem c4_completion_filtering :
    (∀ (data : List SimRow) (ks : Keyspace) (r : SimRow),
      r ∈ filter_out_incomplete data ks →
        r ∈ data ∧ ∀ sc ∈ ks.scenarios,
          ∃ q ∈ data, q.draw = r.draw ∧ q.scenario = sc ∧ q.seed = r.seed)
    ∧ filter_out_incomplete scenarioB_data scenarioB_keyspace
        = [⟨0, 10, str "baseline", []⟩, ⟨0, 10, str "intervention", []⟩,
           ⟨1, 10, str "baseline", []⟩, ⟨1, 20, str "baseline", []⟩,
           ⟨1, 10, str "intervention", []⟩, ⟨1, 20, str "intervention", []⟩] := by
  constructor
  · intro data ks r hr
    obtain ⟨d, _, hdraw, hrdata, hseed⟩ := mem_filter_out_incomplete.mp hr
    refine ⟨hrdata, ?_⟩
    intro sc hsc
    have hpres := (mem_completeSeeds.mp hseed).2 sc hsc
    obtain ⟨q, hq, hqsc, hqseed⟩ := mem_seedsPresent.mp hpres
    have hqd : q.draw = d := by
      have := List.of_mem_filter hq
      simpa using this
    exact ⟨q, List.mem_of_mem_filter hq, by rw [hqd, hdraw], hqsc, hqseed⟩
  · decide

/-- Witness for the universally quantified part of `c4_completion_filtering`,
instantiated at the scenario B table and its first retained row. -/
theorem c4_completion_filtering_witness :
    (⟨0, 10, str "baseline", []⟩ : SimRow) ∈ scenarioB_data
      ∧ ∀ sc ∈ scenarioB_keyspace.scenarios,
          ∃ q ∈ scenarioB_data, q.draw = (⟨0, 10, str "baseline", []⟩ : SimRow).draw
            ∧ q.scenario = sc ∧ q.seed = (⟨0, 10, str "baseline", []⟩ : SimRow).seed :=
  c4_completion_filtering.1 scenarioB_data scenarioB_keyspace _ (by decide)

/-- C9.  Every row retained by completion filtering has its draw among the
keyspace's declared draws and its seed among the declared seeds; concretely, a
seed absent from the declared seed list is dropped even when present in the
data for every scenario of its draw. -/
theorem c9_keyspace_bounds :
    (∀ (data : List SimRow) (ks : Keyspace) (r : SimRow),
      r ∈ filter_out_incomplete data ks → r.draw ∈ ks.draws ∧ r.seed ∈ ks.seeds)
    ∧ filter_out_incomplete
        [⟨0, 99, str "baseline", []⟩, ⟨0, 99, str "intervention", []⟩,
         ⟨0, 10, str "baseline", []⟩, ⟨0, 10, str "intervention", []⟩]
        ⟨[0], [10], [str "baseline", str "intervention"]⟩
        = [⟨0, 10, str "baseline", []⟩, ⟨0, 10, str "intervention", []⟩] := by
  constructor
  · intro data ks r hr
    obtain ⟨d, hd, hdraw, _, hseed⟩ := mem_filter_out_incomplete.mp hr
    exact ⟨hdraw ▸ hd, (mem_completeSeeds.mp hseed).1⟩
  · decide

/-- Witness for the universally quantified part of `c9_keyspace_bounds`. -/
theorem c9_keyspace_bounds_witness :
    (⟨0, 10, str "baseline", []⟩ : SimRow).draw ∈ scenarioB_keyspace.draws
      ∧ (⟨0, 10, str "baseline", []⟩ : SimRow).seed ∈ scenarioB_keyspace.seeds :=
  c9_keyspace_bounds.1 scenarioB_data scenarioB_keyspace _ (by decide)

theorem flatMap_congrOn {α β : Type} {l : List α} {f g : α → List β}
    (h : ∀ a ∈ l, f a = g a) : l.flatMap f = l.flatMap g := by
  induction l with
  | nil => rfl
  | cons x xs ih =>
    simp only [List.flatMap_cons]
    rw [h x (List.mem_cons_self x xs), ih (fun a ha => h a (List.mem_cons_of_mem x ha))]

theorem draw_of_mem_group {data : List SimRow} {ks : Keyspace} {d : Int} {r : SimRow}
    (h : r ∈ (drawFilter data d).filter
      fun q => decide (q.seed ∈ completeSeeds data ks d)) : r.draw = d := by
  have h1 := List.mem_of_mem_filter h
  have h2 := List.of_mem_filter h1
  simpa [drawFilter] using h2

theorem drawFilter_flatMap {ds : List Int} (nd : ds.Nodup) {d : Int} (hd : d ∈ ds)
    (g : Int → List SimRow) (hg : ∀ e : Int, ∀ r ∈ g e, r.draw = e) :
    drawFilter (ds.flatMap g) d = g d := by
  induction ds with
  | nil => simp at hd
  | cons d0 rest ih =>
    rw [List.nodup_cons] at nd
    simp only [List.flatMap_cons, drawFilter, List.filter_append]
    by_cases he : d = d0
    · subst he
      have h1 : (g d).filter (fun r => decide (r.draw = d)) = g d := by
        rw [List.filter_eq_self]
        intro r hr
        exact decide_eq_true (hg d r hr)
      have h2 : (rest.flatMap g).filter (fun r => decide (r.draw = d)) = [] := by
        rw [List.filter_eq_nil_iff]
        intro r hr
        obtain ⟨e, he', hre⟩ := List.mem_flatMap.mp hr
        have : r.draw = e := hg e r hre
        simp only [decide_eq_true_eq, this]
        intro hede
        exact nd.1 (hede ▸ he')
      rw [h1, h2, List.append_nil]
    · have hd' : d ∈ rest := by
        rcases List.mem_cons.mp hd with h | h
        · exact absurd h he
        · exact h
      have h1 : (g d0).filter (fun r => decide (r.draw = d)) = [] := by
        rw [List.filter_eq_nil_iff]
        intro r hr
        simp only [decide_eq_true_eq, hg d0 r hr]
        exact fun h => he h.symm
      rw [h1, List.nil_append]
      have := ih nd.2 hd'
      simpa [drawFilter] using this

theorem group_stable {data : List SimRow} {ks : Keyspace} (hnd : ks.draws.Nodup)
    {d : Int} (hd : d ∈ ks.draws) :
    ((drawFilter (filter_out_incomplete data ks) d).filter
        fun r => decide (r.seed ∈ completeSeeds (filter_out_incomplete data ks) ks d))
      = (drawFilter data d).filter
          fun r => decide (r.seed ∈ completeSeeds data ks d) := by
  set g : Int → List SimRow := fun e =>
    (drawFilter data e).filter fun r => decide (r.seed ∈ completeSeeds data ks e)
      with hgdef
  have hg : ∀ e : Int, ∀ r ∈ g e, r.draw = e := fun e r hr => draw_of_mem_group hr
  have hA : drawFilter (filter_out_incomplete data ks) d = g d :=
    drawFilter_flatMap hnd hd g hg
  rw [hA]
  rw [List.filter_eq_self]
  intro r hr
  apply decide_eq_true
  have hrseed : r.seed ∈ completeSeeds data ks d := by
    have := List.of_mem_filter hr
    simpa using this
  obtain ⟨hks, hall⟩ := mem_completeSeeds.mp hrseed
  apply mem_completeSeeds.mpr
  refine ⟨hks, ?_⟩
  intro sc hsc
  obtain ⟨q, hq, hqsc, hqseed⟩ := mem_seedsPresent.mp (hall sc hsc)
  apply mem_seedsPresent.mpr
  refine ⟨q, ?_, hqsc, hqseed⟩
  rw [hA]
  apply List.mem_filter.mpr
  refine ⟨hq, ?_⟩
  apply decide_eq_true
  rw [hqseed]
  exact hrseed

/-- C7.  Completion filtering is idempotent: applying `filter_out_incomplete`
twice with the same keyspace returns the output of applying it once.  (The
keyspace declares a set of draws, so its draw list is duplicate-free.) -/
theorem c7_filter_idempotent (data : List SimRow) (ks : Keyspace)
    (hnd : ks.draws.Nodup) :
    filter_out_incomplete (filter_out_incomplete data ks) ks
      = filter_out_incomplete data ks := by
  show ks.draws.flatMap _ = filter_out_incomplete data ks
  rw [filter_out_incomplete]
  apply flatMap_congrOn
  intro d hd
  exact group_stable hnd hd

/-- Witness for `c7_filter_idempotent` at the scenario B table. -/
theorem c7_filter_idempotent_witness :
    filter_out_incomplete (filter_out_incomplete scenarioB_data scenarioB_keyspace)
        scenarioB_keyspace
      = filter_out_incomplete scenarioB_data scenarioB_keyspace :=
  c7_filter_idempotent scenarioB_data scenarioB_keyspace (by decide)

/-!
### Aggregation and reshaping

A wide table keeps the groupby identity (`input_draw`, `scenario`) as typed
fields and the data columns as a labelled value list (the `random_seed`
column, not being excluded, is among the data columns and is summed like any
other).  Pandas `groupby` emits one row per distinct key, keys sorted; the
sum is per column over the group's rows.
-/

/-- One row of a wide results table. -/
structure WideRow where
  draw : Int
  scenario : Str
  vals : List Rat
deriving DecidableEq

/-- A wide results table: data column names plus rows. -/
structure WideTable where
  valueCols : List Str
  rows : List WideRow
deriving DecidableEq

/-- The non-count columns: all generated columns of every template named in
`NON_COUNT_TEMPLATES` (declared empty). -/
def nonCountColumns : List Str :=
  NON_COUNT_TEMPLATES.flatMap fun kind => (RESULT_COLUMNS kind).getD []

/-- The count columns: every data column not named by the non-count exclusion
list (the groupby columns are the typed row fields). -/
def countColumns (cols : List Str) : List Str :=
  cols.filter fun c => decide (c ∉ nonCountColumns)

/-- Comparison on group keys, for the sorted order `groupby` emits. -/
def keyLeb (a b : Int × Str) : Bool :=
  if a.1 = b.1 then strLeb a.2 b.2 else decide (a.1 ≤ b.1)

/-- The distinct (draw, scenario) group keys, in sorted order. -/
def groupKeys (t : WideTable) : List (Int × Str) :=
  sortBy keyLeb ((t.rows.map fun r => (r.draw, r.scenario)).dedup)

/-- The count-column cells of one row, in column order (`data[count_columns]`). -/
def projVals (cols : List Str) (r : WideRow) : List Rat :=
  ((cols.zip r.vals).filter fun p => decide (p.1 ∉ nonCountColumns)).map Prod.snd

/-- Componentwise sum of value lists. -/
def sumVals (n : Nat) (ls : List (List Rat)) : List Rat :=
  ls.foldl (fun acc vs => acc.zipWith (· + ·) vs) (List.replicate n 0)

/-- `aggregate_over_seed`: group by (draw, scenario) and sum every count
column over each group. -/
def aggregate_over_seed (t : WideTable) : WideTable :=
  { valueCols := countColumns t.valueCols
    rows := (groupKeys t).map fun k =>
      { draw := k.1
        scenario := k.2
        vals := sumVals (countColumns t.valueCols).length
          ((t.rows.filter fun r => decide ((r.draw, r.scenario) = k)).map
            (projVals t.valueCols)) } }

theorem nonCountColumns_eq_nil : nonCountColumns = [] := rfl

theorem countColumns_eq_self (cols : List Str) : countColumns cols = cols := by
  rw [countColumns, List.filter_eq_self]
  intro c _
  simp [nonCountColumns_eq_nil]

theorem projVals_eq_vals {cols : List Str} {r : WideRow}
    (h : r.vals.length = cols.length) : projVals cols r = r.vals := by
  rw [projVals]
  have hfil : ((cols.zip r.vals).filter fun p => decide (p.1 ∉ nonCountColumns))
      = cols.zip r.vals := by
    rw [List.filter_eq_self]
    intro p _
    simp [nonCountColumns_eq_nil]
  rw [hfil]
  exact List.map_snd_zip cols r.vals (by omega)

theorem sumVals_getD {n : Nat} (j : Nat) (hj : j < n) :
    ∀ (ls : List (List Rat)), (∀ vs ∈ ls, vs.length = n) →
      (sumVals n ls).getD j 0 = (ls.map fun vs => vs.getD j 0).sum := by
  have main : ∀ (ls : List (List Rat)) (init : List Rat), init.length = n →
      (∀ vs ∈ ls, vs.length = n) →
      (ls.foldl (fun acc vs => acc.zipWith (· + ·) vs) init).getD j 0
        = init.getD j 0 + (ls.map fun vs => vs.getD j 0).sum := by
    intro ls
    induction ls with
    | nil => intro init _ _; simp
    | cons vs ls ih =>
      intro init hinit hall
      simp only [List.foldl_cons, List.map_cons, List.sum_cons]
      have hvs : vs.length = n := hall vs (List.mem_cons_self vs ls)
      have hzlen : (init.zipWith (· + ·) vs).length = n := by
        rw [List.length_zipWith, hinit, hvs]
        omega
      rw [ih (init.zipWith (· + ·) vs) hzlen
        (fun w hw => hall w (List.mem_cons_of_mem vs hw))]
      have hz : (init.zipWith (· + ·) vs).getD j 0 = init.getD j 0 + vs.getD j 0 := by
        rw [List.getD_eq_getElem _ _ (by rw [hzlen]; exact hj),
          List.getD_eq_getElem _ _ (by rw [hinit]; exact hj),
          List.getD_eq_getElem _ _ (by rw [hvs]; exact hj)]
        exact List.getElem_zipWith
      rw [hz]
      ring
  intro ls hall
  rw [sumVals, main ls (List.replicate n 0) (by simp) hall]
  simp [List.getD_eq_getElem, hj]

/-- C5.  `aggregate_over_seed` keeps every data column (the non-count
exclusion list is empty, so every data column is a count column) and, for
each emitted (draw, scenario) group row and each count column, its value is
the sum of that column over all of the group's input rows — never an
average; each key occurring in the input is emitted exactly once. -/
theorem c5_aggregate_sums (t : WideTable)
    (hlen : ∀ r ∈ t.rows, r.vals.length = t.valueCols.length) :
    (aggregate_over_seed t).valueCols = t.valueCols
    ∧ (∀ out ∈ (aggregate_over_seed t).rows, ∀ j, j < t.valueCols.length →
        out.vals.getD j 0
          = ((t.rows.filter fun r =>
                decide ((r.draw, r.scenario) = (out.draw, out.scenario))).map
              fun r => r.vals.getD j 0).sum)
    ∧ ∀ d sc, (∃ r ∈ t.rows, r.draw = d ∧ r.scenario = sc) →
        ∃! out : WideRow, out ∈ (aggregate_over_seed t).rows
          ∧ out.draw = d ∧ out.scenario = sc := by
  refine ⟨by simp [aggregate_over_seed, countColumns_eq_self], ?_, ?_⟩
  · intro out hout j hj
    obtain ⟨k, hk, rfl⟩ := List.mem_map.mp hout
    have hgrp : ∀ vs ∈ (t.rows.filter fun r =>
        decide ((r.draw, r.scenario) = k)).map (projVals t.valueCols),
        vs.length = t.valueCols.length := by
      intro vs hvs
      obtain ⟨r, hr, rfl⟩ := List.mem_map.mp hvs
      rw [projVals_eq_vals (hlen r (List.mem_of_mem_filter hr))]
      exact hlen r (List.mem_of_mem_filter hr)
    have hn : (countColumns t.valueCols).length = t.valueCols.length := by
      rw [countColumns_eq_self]
    simp only []
    rw [hn, sumVals_getD j hj _ hgrp, List.map_map]
    congr 1
    apply List.map_congr_left
    intro r hr
    simp only [Function.comp]
    rw [projVals_eq_vals (hlen r (List.mem_of_mem_filter hr))]
  · intro d sc hex
    obtain ⟨r, hr, hd, hsc⟩ := hex
    have hkmem : (d, sc) ∈ groupKeys t := by
      apply (sortBy_perm _ _).mem_iff.mpr
      rw [List.mem_dedup]
      exact List.mem_map.mpr ⟨r, hr, by rw [hd, hsc]⟩
    refine ⟨⟨d, sc, sumVals (countColumns t.valueCols).length
          ((t.rows.filter fun q => decide ((q.draw, q.scenario) = (d, sc))).map
            (projVals t.valueCols))⟩, ⟨?_, rfl, rfl⟩, ?_⟩
    · apply List.mem_map.mpr
      exact ⟨(d, sc), hkmem, rfl⟩
    · rintro out ⟨hout, hod, hosc⟩
      obtain ⟨k, hk, rfl⟩ := List.mem_map.mp hout
      have : k = (d, sc) := by
        cases k
        simp only [] at hod hosc
        rw [hod, hosc]
      rw [this]

/-- A small concrete wide table: two seeds of one (draw, scenario) group. -/
def c5_example_table : WideTable :=
  { valueCols := [str "a", RANDOM_SEED_COLUMN]
    rows := [⟨0, str "baseline", [1, 10]⟩, ⟨0, str "baseline", [2, 20]⟩] }

/-- Witness for `c5_aggregate_sums` at a concrete two-row table. -/
theorem c5_aggregate_sums_witness :
    (aggregate_over_seed c5_example_table).valueCols = c5_example_table.valueCols
    ∧ (∀ out ∈ (aggregate_over_seed c5_example_table).rows,
        ∀ j, j < c5_example_table.valueCols.length →
        out.vals.getD j 0
          = ((c5_example_table.rows.filter fun r =>
                decide ((r.draw, r.scenario) = (out.draw, out.scenario))).map
              fun r => r.vals.getD j 0).sum)
    ∧ ∀ d sc, (∃ r ∈ c5_example_table.rows, r.draw = d ∧ r.scenario = sc) →
        ∃! out : WideRow, out ∈ (aggregate_over_seed c5_example_table).rows
          ∧ out.draw = d ∧ out.scenario = sc :=
  c5_aggregate_sums c5_example_table (by decide)

/-!
`pivot_data` sets the groupby columns as the index and stacks every remaining
column into (key, value) pairs; the index key type is abstract, covering both
the seed-aggregated index (draw, scenario) and the seed-disaggregated index
(draw, scenario, seed) selected by `disaggregate_seeds`.
-/

/-- `pivot_data`: stack every non-index column of a wide row into one long
(key-columns, column-name, value) row per cell. -/
def pivot_data {κ : Type} (cols : List Str) (rows : List (κ × List Rat)) :
    List (κ × Str × Rat) :=
  rows.flatMap fun r => (cols.zip r.2).map fun p => (r.1, p.1, p.2)

/-- C6.  Reshape invariant: the long table has exactly one row per original
row per value column. -/
theorem c6_reshape_rows {κ : Type} (cols : List Str) (rows : List (κ × List Rat))
    (h : ∀ r ∈ rows, r.2.length = cols.length) :
    (pivot_data cols rows).length = rows.length * cols.length := by
  induction rows with
  | nil => simp [pivot_data]
  | cons r rest ih =>
    simp only [pivot_data, List.flatMap_cons, List.length_append, List.length_map]
    have hr : (cols.zip r.2).length = cols.length := by
      rw [List.length_zip, h r (List.mem_cons_self r rest)]
      omega
    have htail : (pivot_data cols rest).length = rest.length * cols.length :=
      ih fun q hq => h q (List.mem_cons_of_mem r hq)
    rw [hr]
    have : (rest.flatMap fun q => (cols.zip q.2).map fun p => (q.1, p.1, p.2)).length
        = rest.length * cols.length := htail
    rw [this, List.length_cons]
    ring

/-- Witness for `c6_reshape_rows` at a concrete 2-row, 3-column table. -/
theorem c6_reshape_rows_witness :
    (pivot_data [str "a", str "b", str "c"]
        ([((0 : Int), str "baseline"), ((1 : Int), str "baseline")].zip
          [[(1 : Rat), 2, 3], [4, 5, 6]])).length
      = ([((0 : Int), str "baseline"), ((1 : Int), str "baseline")].zip
          [[(1 : Rat), 2, 3], [4, 5, 6]]).length * 3 :=
  c6_reshape_rows _ _ (by decide)

/-!
### Embedding of `components/observers.py` (`ResultsStratifier`)

A population snapshot row maps column names to values.  The configured
stratification levels are an ordered association of dimension name to ordered
(category, predicate) pairs, as `setup_stratification` builds them; category
predicates come from `get_state_function` (equality or `isin` on one source
column).  `get_stratification_groups` starts every individual at the empty
string and assigns, for each category combination in enumeration order, the
combination's label to every row its conjunction of predicates matches —
sequential overwrite.
-/

/-- A population snapshot row: column name to value. -/
abbrev PopRow := Str → Str

/-- A category's matching state: a single value or a value list (`isin`). -/
inductive StateSpec : Type
  | one : Str → StateSpec
  | many : List Str → StateSpec

/-- `get_state_function`: the predicate of one category over one source column. -/
def getStateFunction (sourceName : Str) (st : StateSpec) : PopRow → Bool :=
  fun pop =>
    match st with
    | .one s => decide (pop sourceName = s)
    | .many ss => decide (pop sourceName ∈ ss)

/-- `self.stratification_levels`: dimension name to ordered categories. -/
abbrev StratLevels := List (Str × List (Str × (PopRow → Bool)))

/-- `get_all_stratifications`: the product of per-dimension
(metric, category) pairs, in declaration order. -/
def get_all_stratifications (levels : StratLevels) : List (List (Str × Str)) :=
  itProduct (levels.map fun dim => dim.2.map fun c => (dim.1, c.1))

/-- The composite label of one category combination:
`'_'.join(metric_category per dimension).lower()`. -/
def stratName (strat : List (Str × Str)) : Str :=
  lowerStr (joinSep (str "_") (strat.map fun mc => mc.1 ++ str "_" ++ mc.2))

/-- The conjunction of the combination's category predicates on one row
(`mask &= stratification_levels[metric][category](pop)`). -/
def maskOf (levels : StratLevels) (strat : List (Str × Str)) (row : PopRow) : Bool :=
  strat.all fun mc =>
    ((alookup mc.2 ((alookup mc.1 levels).getD [])).getD (fun _ => false)) row

/-- `get_stratification_groups`: series initialized to the empty string, then
per combination, rows matching the mask are overwritten with the
combination's label. -/
def get_stratification_groups (levels : StratLevels)
    (pop : List (Nat × PopRow)) : List (Nat × Str) :=
  ((get_all_stratifications levels).foldl
    (fun series strat =>
      series.map fun e =>
        if maskOf levels strat e.2.1 then (e.1, e.2.1, stratName strat) else e)
    (pop.map fun p => (p.1, p.2, ([] : Str)))).map fun e => (e.1, e.2.2)

/-- The per-row sequential-overwrite result: the label of the last matching
combination, or the initial value when none matches. -/
def lastMatch (levels : StratLevels) (row : PopRow) : Str :=
  (get_all_stratifications levels).foldl
    (fun cur strat => if maskOf levels strat row then stratName strat else cur) []

theorem foldl_upd_eq (levels : StratLevels) :
    ∀ (strats : List (List (Str × Str))) (l : List (Nat × PopRow × Str)),
      strats.foldl
        (fun series strat =>
          series.map fun e =>
            if maskOf levels strat e.2.1 then (e.1, e.2.1, stratName strat) else e) l
      = l.map fun e => (e.1, e.2.1,
          strats.foldl
            (fun cur strat => if maskOf levels strat e.2.1 then stratName strat else cur)
            e.2.2) := by
  intro strats
  induction strats with
  | nil =>
    intro l
    simp
  | cons st strats ih =>
    intro l
    simp only [List.foldl_cons]
    rw [ih]
    rw [List.map_map]
    apply List.map_congr_left
    intro e _
    simp only [Function.comp]
    by_cases hm : maskOf levels st e.2.1
    · simp [hm]
    · simp [hm]

theorem get_stratification_groups_eq (levels : StratLevels) (pop : List (Nat × PopRow)) :
    get_stratification_groups levels pop
      = pop.map fun p => (p.1, lastMatch levels p.2) := by
  rw [get_stratification_groups, foldl_upd_eq, List.map_map, List.map_map]
  apply List.map_congr_left
  intro p _
  simp [Function.comp, lastMatch]

/-- A dimension with two overlapping categories: `c1` matches source values
x or y, `c2` matches x; a row with source value x satisfies both. -/
def c3_levels : StratLevels :=
  [(str "d", [(str "c1", getStateFunction (str "src") (.many [str "x", str "y"])),
              (str "c2", getStateFunction (str "src") (.one (str "x")))])]

/-- A one-individual snapshot whose source column holds x. -/
def c3_pop : List (Nat × PopRow) :=
  [(0, fun c => if c = str "src" then str "x" else [])]

/-- C3 counterexample.  With overlapping categories `c1` (declared first) and
`c2` (declared second) both matching the row, the assigned label is the
later category's `d_c2`, not the first match `d_c1`: sequential overwrite
means the last matching category wins, not the first. -/
theorem c3_counterexample :
    get_stratification_groups c3_levels c3_pop = [(0, str "d_c2")]
      ∧ str "d_c2" ≠ str "d_c1" := by
  constructor
  · rfl
  · decide

/-- C3 amended.  Stratum assignment is sequential overwrite: every individual
is labeled with the LAST matching category combination in the enumeration
order of `get_all_stratifications` (cartesian product in declared dimension
and category order), the label being the dimension-name/category pairs joined
with the fixed separator and lowercased; rows matching nothing keep the empty
string. -/
theorem c3_last_match_wins (levels : StratLevels) (pop : List (Nat × PopRow)) :
    get_stratification_groups levels pop
        = (pop.map fun p => (p.1, lastMatch levels p.2))
      ∧ ∀ row : PopRow, lastMatch levels row
          = ((((get_all_stratifications levels).filter
                fun st => maskOf levels st row).map stratName).getLast?).getD [] := by
  refine ⟨get_stratification_groups_eq levels pop, ?_⟩
  intro row
  rw [lastMatch, foldl_if_update_eq_getLast]

/-- C10.  Stratum assignment is total with an empty-string default: the
returned series is keyed by exactly the snapshot's index, and an individual
matching no category combination is assigned the empty string rather than
being dropped or raising. -/
theorem c10_total_with_default (levels : StratLevels) (pop : List (Nat × PopRow)) :
    (get_stratification_groups levels pop).map Prod.fst = pop.map Prod.fst
      ∧ ∀ p ∈ pop,
          (∀ st ∈ get_all_stratifications levels, maskOf levels st p.2 = false) →
          (p.1, ([] : Str)) ∈ get_stratification_groups levels pop := by
  constructor
  · rw [get_stratification_groups_eq, List.map_map]
    apply List.map_congr_left
    intro p _
    rfl
  · intro p hp hnone
    rw [get_stratification_groups_eq]
    have hlm : lastMatch levels p.2 = [] := by
      rw [lastMatch, foldl_if_update_eq_getLast]
      have : (get_all_stratifications levels).filter (fun st => maskOf levels st p.2)
          = [] := by
        rw [List.filter_eq_nil_iff]
        intro st hst
        simp [hnone st hst]
      rw [this]
      rfl
    exact List.mem_map.mpr ⟨p, hp, by rw [hlm]⟩

/-- A one-individual snapshot whose source column matches no category. -/
def c10_pop : List (Nat × PopRow) :=
  [(7, fun c => if c = str "src" then str "z" else [])]

/-- Witness for `c10_total_with_default`: the no-match individual keeps the
empty string. -/
theorem c10_total_with_default_witness :
    ((get_stratification_groups c3_levels c10_pop).map Prod.fst = c10_pop.map Prod.fst)
      ∧ (7, ([] : Str)) ∈ get_stratification_groups c3_levels c10_pop :=
  ⟨(c10_total_with_default c3_levels c10_pop).1,
    (c10_total_with_default c3_levels c10_pop).2 (7, fun c => if c = str "src" then str "z" else [])
      (List.mem_singleton.mpr rfl) (by decide)⟩
